import Mathlib

/-!
Verification of the BardCore numeric core (`BardCore/include/BardCore/math/math.h`).

Doubles are embedded as exact rationals (`ℚ`) on the ahead-of-time (constexpr)
paths, which perform only field operations, truncation and comparisons, and as
real numbers (`ℝ`) where a live-path platform routine (`std::sqrt`, `std::tan`)
is involved.  The floating-point constants of the source are carried over as
the exact decimal literals written in the source text.  Functions that throw
are modelled with `Except`; the C++ exception types `zero_exception` and
`negative_exception` become the constructors of `Err`.  The source's
`static_cast<int>` on a double is truncation toward zero, modelled by
`truncToZero`.  The bitwise fixed-point recursion of the Newton-Raphson sqrt
helper is modelled with explicit fuel (`none` = the iteration has not reached
its fixed point within the allotted fuel).
-/

namespace bardcore

/-- The exception kinds thrown by the numeric core: `exception::zero_exception`
and `exception::negative_exception`. -/
inductive Err where
  | zeroException
  | negativeException
deriving DecidableEq

/-- `math::epsilon = 0.00001`. -/
def math.epsilon : ℚ := 0.00001

/-- `DBL_EPSILON` from `<cfloat>`, exactly `2^-52`, used by `math::mod`. -/
def math.DBL_EPSILON : ℚ := 1 / 2 ^ 52

/-- `math::_180_div_pi = 57.295779513082323`. -/
def math._180_div_pi : ℚ := 57.295779513082323

/-- `math::pi_div_180 = 0.017453292519943295`. -/
def math.pi_div_180 : ℚ := 0.017453292519943295

/-- `math::_2pi = 6.28318530717958647692`. -/
def math._2pi : ℚ := 6.28318530717958647692

/-- `math::pi = 3.14159265358979323846`. -/
def math.pi : ℚ := 3.14159265358979323846

/-- `math::pi_2 = 1.57079632679489661923`. -/
def math.pi_2 : ℚ := 1.57079632679489661923

/-- `math::pi_4 = 0.785398163397448309616`. -/
def math.pi_4 : ℚ := 0.785398163397448309616

/-- `math::radians_to_degrees(radians) = radians * _180_div_pi`. -/
def math.radians_to_degrees (radians : ℚ) : ℚ :=
  radians * math._180_div_pi

/-- `math::degrees_to_radians(degrees) = degrees * pi_div_180`. -/
def math.degrees_to_radians (degrees : ℚ) : ℚ :=
  degrees * math.pi_div_180

/-- `math::less_than(number1, number2) = number2 - number1 > epsilon`. -/
def math.less_than (number1 number2 : ℚ) : Bool :=
  decide (number2 - number1 > math.epsilon)

/-- `math::greater_than(number1, number2) = number1 - number2 > epsilon`. -/
def math.greater_than (number1 number2 : ℚ) : Bool :=
  decide (number1 - number2 > math.epsilon)

/-- `math::abs(value) = less_than(value, 0) ? -value : value`. -/
def math.abs (value : ℚ) : ℚ :=
  if math.less_than value 0 then -value else value

/-- `math::equals(number1, number2) = abs(number1 - number2) <= epsilon`. -/
def math.equals (number1 number2 : ℚ) : Bool :=
  decide (math.abs (number1 - number2) ≤ math.epsilon)

/-- `math::sign(value)`: `0` if `equals(value, 0)`, else `-1` if
`less_than(value, 0)`, else `1`. -/
def math.sign (value : ℚ) : ℤ :=
  if math.equals value 0 then 0
  else if math.less_than value 0 then -1 else 1

/-- C++ `static_cast<int>` on a floating value: truncation toward zero. -/
def truncToZero (q : ℚ) : ℤ :=
  if 0 ≤ q then ⌊q⌋ else ⌈q⌉

/-- The platform `std::fmod`, which is exact on floating inputs:
`fmod(x, y) = x - y * trunc(x / y)`. -/
def std.fmod (x y : ℚ) : ℚ :=
  x - y * (truncToZero (x / y) : ℚ)

/-- `math::mod` on the live (runtime) path: after the `equals(divisor, 0)`
guard it delegates to `std::fmod` and normalizes a remainder whose
`abs` equals the divisor's `abs` down to `0`. -/
def math.mod_rt (value divisor : ℚ) : Except Err ℚ :=
  if math.equals divisor 0 then .error .zeroException
  else
    let m := std.fmod value divisor
    .ok (if math.equals (math.abs m) (math.abs divisor) then 0 else m)

/-- `math::mod` on the ahead-of-time (constexpr) path: after the
`equals(divisor, 0)` guard, `equals(value, 0)` returns `0`; otherwise
`multiplier = int(value/divisor + epsilon * sign(value/divisor))` and the
result is `value - multiplier * divisor + DBL_EPSILON * sign(value)`. -/
def math.mod_ct (value divisor : ℚ) : Except Err ℚ :=
  if math.equals divisor 0 then .error .zeroException
  else if math.equals value 0 then .ok 0
  else
    let multiplier : ℤ :=
      truncToZero (value / divisor + math.epsilon * (math.sign (value / divisor) : ℚ))
    .ok (value - (multiplier : ℚ) * divisor + math.DBL_EPSILON * (math.sign value : ℚ))

/-- `math::helper_sqrt_newton_raphson(value, curr, prev)`: recurse with
`curr := 0.5 * (curr + value / curr)` until `curr == prev`.  The bitwise
fixed-point termination of the source is modelled by fuel; `none` means the
fixed point was not reached within the fuel. -/
def math.helper_sqrt_newton_raphson (fuel : Nat) (value curr prev : ℚ) : Option ℚ :=
  match fuel with
  | 0 => none
  | fuel + 1 =>
    if curr = prev then some curr
    else math.helper_sqrt_newton_raphson fuel value (0.5 * (curr + value / curr)) curr

/-- `math::sqrt` on the live path: negative input throws
`negative_exception`, otherwise delegates to `std::sqrt`. -/
noncomputable def math.sqrt_rt (value : ℝ) : Except Err ℝ :=
  if value < 0 then .error .negativeException
  else .ok (Real.sqrt value)

/-- `math::sqrt` on the ahead-of-time path: negative input throws
`negative_exception`, otherwise `helper_sqrt_newton_raphson(value, value, 0)`. -/
def math.sqrt_ct (fuel : Nat) (value : ℚ) : Except Err (Option ℚ) :=
  if value < 0 then .error .negativeException
  else .ok (math.helper_sqrt_newton_raphson fuel value value 0)

/-- The sequence of iterates produced by `helper_sqrt_newton_raphson`
starting from the initial guess `value` of `math::sqrt`. -/
def math.newton (value : ℚ) : Nat → ℚ
  | 0 => value
  | n + 1 => 0.5 * (math.newton value n + value / math.newton value n)

/-- The Newton iterates of `math::sqrt`, viewed in `ℝ` (the rational
iterates cast into the reals, for the convergence analysis). -/
noncomputable def math.newtonR (value : ℚ) (n : Nat) : ℝ :=
  ((math.newton value n : ℚ) : ℝ)

/-- `math::factorial` on the ahead-of-time path: `1` for `0`, else
`value * factorial(value - 1)`. -/
def math.factorial_ct (value : Nat) : ℚ :=
  match value with
  | 0 => 1
  | v + 1 => (v + 1 : ℚ) * math.factorial_ct v

/-- `math::pow` on the ahead-of-time path (the NaN/infinity guard of the
source is vacuous over `ℚ`): `1` if the exponent is `0` or `equals(base, 1)`;
`base * pow(base, exponent - 1)` for positive exponents;
`1 / (base * pow(base, -exponent - 1))` for negative ones. -/
def math.pow_ct (base : ℚ) (exponent : ℤ) : ℚ :=
  if h0 : exponent = 0 ∨ math.equals base 1 then 1
  else if hpos : 0 < exponent then base * math.pow_ct base (exponent - 1)
  else 1 / (base * math.pow_ct base (-exponent - 1))
termination_by exponent.natAbs
decreasing_by
  · omega
  · omega

/-- The Maclaurin summation loop of `math::sin`: up to 1000 terms
`(-1)^index * value^(2 index + 1) / (2 index + 1)!`, stopping when a term is
`equals`-zero (the NaN/infinity stop conditions of the source are vacuous
over `ℚ`). -/
def math.sin_ct_loop (value : ℚ) (index : Nat) (result : ℚ) : ℚ :=
  if index < 1000 then
    let r := math.pow_ct (-1) (index : ℤ) * math.pow_ct value (2 * (index : ℤ) + 1) /
      math.factorial_ct (2 * index + 1)
    if math.equals r 0 then result
    else math.sin_ct_loop value (index + 1) (result + r)
  else result
termination_by 1000 - index

/-- `math::sin` on the ahead-of-time path: reduce via `mod(value, 2 * pi)`
(the NaN/infinity guard is vacuous over `ℚ`), then run the Maclaurin loop. -/
def math.sin_ct (value : ℚ) : Except Err ℚ :=
  (math.mod_ct value (2 * math.pi)).map (fun v => math.sin_ct_loop v 0 0)

/-- `math::cos` on the ahead-of-time path: `sin(value + pi_2)`. -/
def math.cos_ct (value : ℚ) : Except Err ℚ :=
  math.sin_ct (value + math.pi_2)

/-- `math::tan` on the ahead-of-time path.  `none` models the `NAN` return.
In source order: if `equals(mod(value, pi), 0)` return `0`; if
`!equals(value, 0) && equals(mod(value, pi_2), 0)` return `NAN`; otherwise
`sin(value) / cos(value)`. -/
def math.tan_ct (value : ℚ) : Except Err (Option ℚ) :=
  match math.mod_ct value math.pi with
  | .error e => .error e
  | .ok m1 =>
    if math.equals m1 0 then .ok (some 0)
    else
      match math.mod_ct value math.pi_2 with
      | .error e => .error e
      | .ok m2 =>
        if !math.equals value 0 && math.equals m2 0 then .ok none
        else
          match math.sin_ct value, math.cos_ct value with
          | .ok s, .ok c => .ok (some (s / c))
          | .error e, _ => .error e
          | _, .error e => .error e

/-- `math::tan` on the live path: the same two guards (whose `mod` calls now
take the runtime path), then delegation to `std::tan`.  `none` models `NAN`. -/
noncomputable def math.tan_rt (value : ℚ) : Except Err (Option ℝ) :=
  match math.mod_rt value math.pi with
  | .error e => .error e
  | .ok m1 =>
    if math.equals m1 0 then .ok (some 0)
    else
      match math.mod_rt value math.pi_2 with
      | .error e => .error e
      | .ok m2 =>
        if !math.equals value 0 && math.equals m2 0 then .ok none
        else .ok (some (Real.tan (value : ℝ)))

/-- `math::euclidean_gcd(number1, number2)`: throws `zero_exception` if
either operand is `0`, `negative_exception` if `number1 < number2`, else
recurses on `(number2, number1 % number2)` until the remainder is `0`. -/
def math.euclidean_gcd (number1 number2 : Nat) : Except Err Nat :=
  if number1 = 0 ∨ number2 = 0 then .error .zeroException
  else if number1 < number2 then .error .negativeException
  else if number1 % number2 = 0 then .ok number2
  else math.euclidean_gcd number2 (number1 % number2)
termination_by number2
decreasing_by
  exact Nat.mod_lt _ (Nat.pos_of_ne_zero (fun h => ‹¬(number1 = 0 ∨ number2 = 0)› (Or.inr h)))

/-! ### Basic facts about the comparison layer -/

theorem math.epsilon_pos : (0 : ℚ) < math.epsilon := by norm_num [math.epsilon]

theorem math.epsilon_lt_one : math.epsilon < 1 := by norm_num [math.epsilon]

theorem math.DBL_EPSILON_pos : (0 : ℚ) < math.DBL_EPSILON := by
  norm_num [math.DBL_EPSILON]

theorem math.DBL_EPSILON_lt_eps_sq : math.DBL_EPSILON < math.epsilon * math.epsilon := by
  norm_num [math.DBL_EPSILON, math.epsilon]

theorem math.less_than_true_iff (a b : ℚ) :
    math.less_than a b = true ↔ a < b - math.epsilon := by
  simp only [math.less_than, decide_eq_true_eq, gt_iff_lt]
  constructor <;> intro h <;> linarith

theorem math.less_than_false_iff (a b : ℚ) :
    math.less_than a b = false ↔ b - math.epsilon ≤ a := by
  rw [Bool.eq_false_iff, Ne, math.less_than_true_iff, not_lt]

theorem math.equals_true_iff (a b : ℚ) :
    math.equals a b = true ↔ (-math.epsilon ≤ a - b ∧ a - b ≤ math.epsilon) := by
  have hε := math.epsilon_pos
  simp only [math.equals, math.abs, decide_eq_true_eq]
  split_ifs with h
  · rw [math.less_than_true_iff] at h
    constructor
    · intro h2
      constructor <;> linarith
    · intro h2
      linarith [h2.1]
  · rw [Bool.not_eq_true, math.less_than_false_iff] at h
    constructor
    · intro h2
      constructor <;> linarith
    · intro h2
      exact h2.2

theorem math.equals_false_iff (a b : ℚ) :
    math.equals a b = false ↔ (a - b < -math.epsilon ∨ math.epsilon < a - b) := by
  rw [Bool.eq_false_iff, Ne, math.equals_true_iff]
  constructor
  · intro h
    by_cases h1 : a - b < -math.epsilon
    · exact Or.inl h1
    · right
      by_contra h2
      exact h ⟨not_lt.mp h1, not_lt.mp h2⟩
  · rintro (h | h) ⟨h1, h2⟩ <;> linarith

theorem math.sign_of_small {v : ℚ} (h1 : -math.epsilon ≤ v) (h2 : v ≤ math.epsilon) :
    math.sign v = 0 := by
  rw [math.sign,
    if_pos ((math.equals_true_iff v 0).mpr ⟨by linarith, by linarith⟩)]

theorem math.sign_of_pos {v : ℚ} (h : math.epsilon < v) : math.sign v = 1 := by
  have he : math.equals v 0 = false :=
    (math.equals_false_iff v 0).mpr (Or.inr (by linarith))
  have hl : math.less_than v 0 = false :=
    (math.less_than_false_iff v 0).mpr (by linarith [math.epsilon_pos])
  rw [math.sign, he, hl]
  rfl

theorem math.sign_of_neg {v : ℚ} (h : v < -math.epsilon) : math.sign v = -1 := by
  have he : math.equals v 0 = false :=
    (math.equals_false_iff v 0).mpr (Or.inl (by linarith))
  have hl : math.less_than v 0 = true :=
    (math.less_than_true_iff v 0).mpr (by linarith)
  rw [math.sign, he, hl]
  rfl

theorem math.abs_of_pos_big {d : ℚ} (h : math.epsilon < d) : math.abs d = d := by
  have hl : math.less_than d 0 = false :=
    (math.less_than_false_iff d 0).mpr (by linarith [math.epsilon_pos])
  rw [math.abs, hl]
  rfl

theorem math.abs_of_neg_big {d : ℚ} (h : d < -math.epsilon) : math.abs d = -d := by
  have hl : math.less_than d 0 = true :=
    (math.less_than_true_iff d 0).mpr (by linarith)
  rw [math.abs, hl]
  rfl

theorem math.abs_zero_eq : math.abs 0 = 0 := by
  have hl : math.less_than 0 0 = false :=
    (math.less_than_false_iff 0 0).mpr (by linarith [math.epsilon_pos])
  rw [math.abs, hl]
  rfl

theorem truncToZero_eq_zero {q : ℚ} (h1 : -1 < q) (h2 : q < 1) : truncToZero q = 0 := by
  rw [truncToZero]
  split_ifs with h
  · exact Int.floor_eq_zero_iff.mpr ⟨h, h2⟩
  · exact Int.ceil_eq_zero_iff.mpr ⟨h1, by linarith [not_le.mp h]⟩

theorem truncToZero_intCast (k : ℤ) : truncToZero (k : ℚ) = k := by
  rw [truncToZero]
  split_ifs <;> simp

/-! ### C10 -/

/-- C10: for every input `a` with `-epsilon ≤ a < 0`, `math::abs(a)` returns
`a` itself, a strictly negative value, because `abs` negates only when
`less_than(a, 0)`, which requires `a < -epsilon`. -/
theorem C10_abs_keeps_small_negatives (a : ℚ) (h1 : -math.epsilon ≤ a) (h2 : a < 0) :
    math.abs a = a ∧ math.abs a < 0 := by
  have hl : math.less_than a 0 = false :=
    (math.less_than_false_iff a 0).mpr (by linarith)
  have he : math.abs a = a := by rw [math.abs, hl]; rfl
  exact ⟨he, by rw [he]; exact h2⟩

theorem C10_input_lower : -math.epsilon ≤ (-0.00001 : ℚ) := by
  norm_num [math.epsilon]

theorem C10_input_neg : (-0.00001 : ℚ) < 0 := by norm_num

/-- Witness for C10 at `a = -0.00001`. -/
theorem C10_abs_keeps_small_negatives_witness :
    -math.epsilon ≤ (-0.00001 : ℚ) ∧ (-0.00001 : ℚ) < 0 ∧
      (math.abs (-0.00001) = -0.00001 ∧ math.abs (-0.00001 : ℚ) < 0) :=
  ⟨C10_input_lower, C10_input_neg,
    C10_abs_keeps_small_negatives (-0.00001) C10_input_lower C10_input_neg⟩

/-! ### C2 and C9: Euclidean GCD -/

theorem math.euclidean_gcd_eq : ∀ b a : Nat, 0 < b → b ≤ a →
    math.euclidean_gcd a b = .ok (Nat.gcd a b) := by
  intro b
  induction b using Nat.strong_induction_on with
  | _ b ih =>
    intro a hb hba
    rw [math.euclidean_gcd, if_neg (by omega), if_neg (by omega)]
    by_cases h : a % b = 0
    · rw [if_pos h]
      have hd : b ∣ a := Nat.dvd_of_mod_eq_zero h
      rw [Nat.gcd_comm, Nat.gcd_eq_left hd]
    · rw [if_neg h]
      have hlt : a % b < b := Nat.mod_lt _ hb
      have h0 : 0 < a % b := Nat.pos_of_ne_zero h
      rw [ih (a % b) hlt b h0 (le_of_lt hlt)]
      have : Nat.gcd a b = Nat.gcd b (a % b) := by
        rw [Nat.gcd_comm a b, Nat.gcd_rec b a, Nat.gcd_comm]
      rw [this]

/-- C2: for unsigned `a >= b > 0`, `euclidean_gcd(a, b)` returns a value that
divides both `a` and `b` exactly, and no larger common divisor exists. -/
theorem C2_euclidean_gcd_correct (a b : Nat) (hb : 0 < b) (hba : b ≤ a) :
    ∃ g, math.euclidean_gcd a b = .ok g ∧ g ∣ a ∧ g ∣ b ∧
      ∀ d : Nat, d ∣ a → d ∣ b → d ≤ g := by
  refine ⟨Nat.gcd a b, math.euclidean_gcd_eq b a hb hba,
    Nat.gcd_dvd_left a b, Nat.gcd_dvd_right a b, fun d hda hdb => ?_⟩
  have hg : 0 < Nat.gcd a b := Nat.gcd_pos_of_pos_right a hb
  exact Nat.le_of_dvd hg (Nat.dvd_gcd hda hdb)

/-- Witness for C2 at the spec's own example `euclidean_gcd(1071, 462) == 21`. -/
theorem C2_euclidean_gcd_correct_witness :
    0 < 462 ∧ 462 ≤ 1071 ∧
      ∃ g, math.euclidean_gcd 1071 462 = .ok g ∧ g ∣ 1071 ∧ g ∣ 462 ∧
        ∀ d : Nat, d ∣ 1071 → d ∣ 462 → d ≤ g :=
  ⟨by decide, by decide, C2_euclidean_gcd_correct 1071 462 (by decide) (by decide)⟩

/-- C9: `euclidean_gcd(a, b)` fails with `ZeroInputError` (the code's
`zero_exception`) exactly when an operand is `0`, fails with `OrderingError`
(the code's `negative_exception`) exactly when both operands are non-zero and
`a < b`, and in every other case (`a >= b > 0`) returns a result. -/
theorem C9_euclidean_gcd_error_conditions (a b : Nat) :
    (math.euclidean_gcd a b = .error .zeroException ↔ a = 0 ∨ b = 0) ∧
    (math.euclidean_gcd a b = .error .negativeException ↔ a ≠ 0 ∧ b ≠ 0 ∧ a < b) ∧
    ((math.euclidean_gcd a b).isOk = true ↔ 0 < b ∧ b ≤ a) := by
  by_cases hz : a = 0 ∨ b = 0
  · have heq : math.euclidean_gcd a b = .error .zeroException := by
      rw [math.euclidean_gcd, if_pos hz]
    rw [heq]
    refine ⟨⟨fun _ => hz, fun _ => rfl⟩, ⟨fun h => ?_, fun h => ?_⟩, ⟨fun h => ?_, fun h => ?_⟩⟩
    · exact absurd h (by simp)
    · rcases hz with h0 | h0
      · exact absurd h0 h.1
      · exact absurd h0 h.2.1
    · simp [Except.isOk, Except.toBool] at h
    · rcases hz with h0 | h0 <;> omega
  · have ha : a ≠ 0 := fun h => hz (Or.inl h)
    have hb : b ≠ 0 := fun h => hz (Or.inr h)
    by_cases hlt : a < b
    · have heq : math.euclidean_gcd a b = .error .negativeException := by
        rw [math.euclidean_gcd, if_neg hz, if_pos hlt]
      rw [heq]
      refine ⟨⟨fun h => ?_, fun h => ?_⟩, ⟨fun _ => ⟨ha, hb, hlt⟩, fun _ => rfl⟩,
        ⟨fun h => ?_, fun h => ?_⟩⟩
      · exact absurd h (by simp)
      · rcases h with h0 | h0
        · exact absurd h0 ha
        · exact absurd h0 hb
      · simp [Except.isOk, Except.toBool] at h
      · omega
    · have heq : math.euclidean_gcd a b = .ok (Nat.gcd a b) :=
        math.euclidean_gcd_eq b a (Nat.pos_of_ne_zero hb) (le_of_not_lt hlt)
      rw [heq]
      refine ⟨⟨fun h => ?_, fun h => ?_⟩, ⟨fun h => ?_, fun h => ?_⟩, ⟨fun _ => ?_, fun _ => rfl⟩⟩
      · exact absurd h (by simp)
      · rcases h with h0 | h0
        · exact absurd h0 ha
        · exact absurd h0 hb
      · exact absurd h (by simp)
      · exact absurd h.2.2 hlt
      · exact ⟨Nat.pos_of_ne_zero hb, le_of_not_lt hlt⟩

/-! ### C3: sqrt error behaviour -/

/-- C3: on both paths `sqrt` fails, with the negative-input error, exactly
when the input is negative; `sqrt(0)` returns `0` exactly (the ahead-of-time
helper reaches its fixed point on the first step); and every non-negative
input returns without failure. -/
theorem C3_sqrt_error_iff_negative (v : ℝ) (q : ℚ) (fuel : Nat) :
    ((∃ e, math.sqrt_rt v = .error e) ↔ v < 0) ∧
    (math.sqrt_rt v = .error .negativeException ↔ v < 0) ∧
    math.sqrt_rt 0 = .ok 0 ∧
    (0 ≤ v → (math.sqrt_rt v).isOk = true) ∧
    ((∃ e, math.sqrt_ct fuel q = .error e) ↔ q < 0) ∧
    (math.sqrt_ct fuel q = .error .negativeException ↔ q < 0) ∧
    math.sqrt_ct (fuel + 1) 0 = .ok (some 0) ∧
    (0 ≤ q → (math.sqrt_ct fuel q).isOk = true) := by
  refine ⟨⟨?_, ?_⟩, ⟨?_, ?_⟩, ?_, ?_, ⟨?_, ?_⟩, ⟨?_, ?_⟩, ?_, ?_⟩
  · rintro ⟨e, he⟩
    by_contra hc
    rw [math.sqrt_rt, if_neg hc] at he
    exact absurd he (by simp)
  · intro h
    exact ⟨.negativeException, by rw [math.sqrt_rt, if_pos h]⟩
  · intro h
    by_contra hc
    rw [math.sqrt_rt, if_neg hc] at h
    exact absurd h (by simp)
  · intro h
    rw [math.sqrt_rt, if_pos h]
  · rw [math.sqrt_rt, if_neg (lt_irrefl 0), Real.sqrt_zero]
  · intro h
    rw [math.sqrt_rt, if_neg (not_lt.mpr h)]
    rfl
  · rintro ⟨e, he⟩
    by_contra hc
    rw [math.sqrt_ct, if_neg hc] at he
    exact absurd he (by simp)
  · intro h
    exact ⟨.negativeException, by rw [math.sqrt_ct, if_pos h]⟩
  · intro h
    by_contra hc
    rw [math.sqrt_ct, if_neg hc] at h
    exact absurd h (by simp)
  · intro h
    rw [math.sqrt_ct, if_pos h]
  · rw [math.sqrt_ct, if_neg (lt_irrefl 0)]
    simp [math.helper_sqrt_newton_raphson]
  · intro h
    rw [math.sqrt_ct, if_neg (not_lt.mpr h)]
    rfl

/-- Witness for C3 at `v = 1`, `q = 1`, `fuel = 1`. -/
theorem C3_sqrt_error_iff_negative_witness :
    (math.sqrt_rt 1).isOk = true ∧ (math.sqrt_ct 1 1).isOk = true :=
  ⟨(C3_sqrt_error_iff_negative 1 1 1).2.2.2.1 zero_le_one,
   (C3_sqrt_error_iff_negative 1 1 1).2.2.2.2.2.2.2 zero_le_one⟩

/-! ### C1: sqrt squares back to the input -/

theorem math.helper_sqrt_fixed_aux : ∀ (fuel : Nat) (v c r : ℚ), 0 < v → 0 < c →
    math.helper_sqrt_newton_raphson fuel v (0.5 * (c + v / c)) c = some r →
    r * r = v := by
  intro fuel
  induction fuel with
  | zero =>
    intro v c r _ _ h
    simp [math.helper_sqrt_newton_raphson] at h
  | succ n ih =>
    intro v c r hv hc h
    rw [math.helper_sqrt_newton_raphson] at h
    split_ifs at h with heq
    · have hr : r = 0.5 * (c + v / c) := by
        have := Option.some.inj h
        exact this.symm
      have hc' : c ≠ 0 := ne_of_gt hc
      have hv2 : c * c = v := by
        field_simp at heq
        linarith
      rw [hr, heq, hv2]
    · exact ih v (0.5 * (c + v / c)) r hv (by positivity) h

theorem math.sqrt_ct_exact (fuel : Nat) (q r : ℚ) (hq : 0 ≤ q)
    (h : math.sqrt_ct fuel q = .ok (some r)) : r * r = q := by
  rw [math.sqrt_ct, if_neg (not_lt.mpr hq)] at h
  have h' : math.helper_sqrt_newton_raphson fuel q q 0 = some r :=
    Except.ok.inj h
  rcases eq_or_lt_of_le hq with hq0 | hq0
  · cases fuel with
    | zero => simp [math.helper_sqrt_newton_raphson] at h'
    | succ n =>
      rw [← hq0] at h' ⊢
      rw [math.helper_sqrt_newton_raphson, if_pos rfl] at h'
      rw [← Option.some.inj h']
      ring
  · cases fuel with
    | zero => simp [math.helper_sqrt_newton_raphson] at h'
    | succ n =>
      rw [math.helper_sqrt_newton_raphson, if_neg (ne_of_gt hq0)] at h'
      exact math.helper_sqrt_fixed_aux n q q r hq0 hq0 h'

theorem math.newtonR_zero (q : ℚ) : math.newtonR q 0 = (q : ℝ) := by
  rw [math.newtonR, math.newton]

theorem math.newtonR_succ (q : ℚ) (n : Nat) :
    math.newtonR q (n + 1) = 0.5 * (math.newtonR q n + (q : ℝ) / math.newtonR q n) := by
  rw [math.newtonR, math.newtonR, math.newton]
  push_cast
  ring

theorem math.newton_eventually_within_epsilon (q : ℚ) (hq : 0 ≤ q) :
    ∃ n, |math.newton q n * math.newton q n - q| ≤ math.epsilon := by
  rcases eq_or_lt_of_le hq with h0 | hpos
  · refine ⟨0, ?_⟩
    rw [← h0]
    simpa [math.newton] using le_of_lt math.epsilon_pos
  · have hqR : (0 : ℝ) < (q : ℝ) := by exact_mod_cast hpos
    set y : ℝ := Real.sqrt (q : ℝ) with hy
    have hy2 : y * y = (q : ℝ) := Real.mul_self_sqrt (le_of_lt hqR)
    have hypos : 0 < y := Real.sqrt_pos.mpr hqR
    have hGpos : ∀ n, 0 < math.newtonR q n := by
      intro n
      induction n with
      | zero => rw [math.newtonR_zero]; exact hqR
      | succ n ih =>
        rw [math.newtonR_succ]
        have hdiv : 0 < (q : ℝ) / math.newtonR q n := div_pos hqR ih
        linarith
    have hGge : ∀ n, y ≤ math.newtonR q (n + 1) := by
      intro n
      have hx := hGpos n
      have key : math.newtonR q (n + 1) - y =
          (math.newtonR q n - y) ^ 2 / (2 * math.newtonR q n) := by
        rw [math.newtonR_succ, ← hy2]
        field_simp
        ring
      have hnn : 0 ≤ (math.newtonR q n - y) ^ 2 / (2 * math.newtonR q n) :=
        div_nonneg (sq_nonneg _) (by linarith)
      linarith [key]
    have hdec : ∀ n, math.newtonR q (n + 2) - y ≤ (math.newtonR q (n + 1) - y) / 2 := by
      intro n
      have hx := hGpos (n + 1)
      have hge := hGge n
      have key : math.newtonR q (n + 2) - y =
          (math.newtonR q (n + 1) - y) ^ 2 / (2 * math.newtonR q (n + 1)) := by
        rw [math.newtonR_succ, ← hy2]
        field_simp
        ring
      have key2 : (math.newtonR q (n + 1) - y) / 2 - (math.newtonR q (n + 2) - y) =
          (math.newtonR q (n + 1) - y) * y / (2 * math.newtonR q (n + 1)) := by
        rw [key]
        field_simp
        ring
      have hnn : 0 ≤ (math.newtonR q (n + 1) - y) * y / (2 * math.newtonR q (n + 1)) :=
        div_nonneg (mul_nonneg (by linarith) (le_of_lt hypos)) (by linarith)
      linarith [key2]
    have hgeo : ∀ k, math.newtonR q (k + 1) - y ≤ (math.newtonR q 1 - y) / 2 ^ k := by
      intro k
      induction k with
      | zero => simp
      | succ k ih =>
        have h1 := hdec k
        have h2 : (math.newtonR q (k + 1) - y) / 2 ≤ ((math.newtonR q 1 - y) / 2 ^ k) / 2 := by
          linarith
        calc math.newtonR q (k + 1 + 1) - y ≤ (math.newtonR q (k + 1) - y) / 2 := h1
          _ ≤ ((math.newtonR q 1 - y) / 2 ^ k) / 2 := h2
          _ = (math.newtonR q 1 - y) / 2 ^ (k + 1) := by ring
    have hmono : ∀ n, math.newtonR q (n + 2) ≤ math.newtonR q (n + 1) := by
      intro n
      have hx := hGpos (n + 1)
      have hge := hGge n
      have key : math.newtonR q (n + 1) - math.newtonR q (n + 2) =
          ((math.newtonR q (n + 1)) ^ 2 - (q : ℝ)) / (2 * math.newtonR q (n + 1)) := by
        rw [math.newtonR_succ (q := q) (n := n + 1)]
        field_simp
        ring
      have hnum : 0 ≤ (math.newtonR q (n + 1)) ^ 2 - (q : ℝ) := by
        nlinarith [hge, hypos, hy2]
      linarith [key, div_nonneg hnum (by linarith : (0:ℝ) ≤ 2 * math.newtonR q (n + 1))]
    have hle1 : ∀ k, math.newtonR q (k + 1) ≤ math.newtonR q 1 := by
      intro k
      induction k with
      | zero => exact le_refl _
      | succ k ih => exact le_trans (hmono k) ih
    set C : ℝ := (math.newtonR q 1 - y) * (math.newtonR q 1 + y) with hC
    have hC0 : 0 ≤ C := by
      have := hGge 0
      have := hypos
      apply mul_nonneg <;> linarith
    set εR : ℝ := ((math.epsilon : ℚ) : ℝ) with hεR
    have hεRpos : 0 < εR := by
      rw [hεR]
      exact_mod_cast math.epsilon_pos
    obtain ⟨k, hk⟩ : ∃ k : ℕ, (1 / 2 : ℝ) ^ k < εR / (C + 1) :=
      exists_pow_lt_of_lt_one (div_pos hεRpos (by linarith)) (by norm_num)
    refine ⟨k + 1, ?_⟩
    have hgek := hGge k
    have habs : |math.newtonR q (k + 1) * math.newtonR q (k + 1) - (q : ℝ)| =
        math.newtonR q (k + 1) * math.newtonR q (k + 1) - (q : ℝ) := by
      apply abs_of_nonneg
      nlinarith [hgek, hypos, hy2]
    have hfact : math.newtonR q (k + 1) * math.newtonR q (k + 1) - (q : ℝ) =
        (math.newtonR q (k + 1) - y) * (math.newtonR q (k + 1) + y) := by
      rw [← hy2]
      ring
    have hbound : (math.newtonR q (k + 1) - y) * (math.newtonR q (k + 1) + y) ≤
        ((math.newtonR q 1 - y) / 2 ^ k) * (math.newtonR q 1 + y) := by
      apply mul_le_mul (hgeo k) (by linarith [hle1 k]) (by linarith [hgek, hypos]) ?_
      have := hGge 0
      have h2k : (0:ℝ) < 2 ^ k := by positivity
      exact div_nonneg (by linarith) (le_of_lt h2k)
    have heq2 : ((math.newtonR q 1 - y) / 2 ^ k) * (math.newtonR q 1 + y) =
        C * (1 / 2 : ℝ) ^ k := by
      rw [hC]
      field_simp
    have hfinal : C * (1 / 2 : ℝ) ^ k ≤ εR := by
      have h1 : C * (1 / 2 : ℝ) ^ k ≤ C * (εR / (C + 1)) :=
        mul_le_mul_of_nonneg_left (le_of_lt hk) hC0
      have h2 : C * (εR / (C + 1)) ≤ εR := by
        rw [mul_div_assoc']
        rw [div_le_iff₀ (by linarith : (0:ℝ) < C + 1)]
        nlinarith [hεRpos]
      linarith
    have hR : |math.newtonR q (k + 1) * math.newtonR q (k + 1) - (q : ℝ)| ≤ εR := by
      rw [habs, hfact]
      linarith [hbound, heq2, hfinal]
    rw [math.newtonR, hεR] at hR
    have : |((math.newton q (k + 1) * math.newton q (k + 1) - q : ℚ) : ℝ)| ≤
        ((math.epsilon : ℚ) : ℝ) := by
      push_cast
      exact hR
    exact_mod_cast this

/-- C1: for every `v ≥ 0`, `sqrt(v)` succeeds and `sqrt(v) * sqrt(v)` is
within epsilon of `v`: on the live path the platform square root squares back
to `v` exactly; on the ahead-of-time path the Newton-Raphson iterates come
within epsilon (in at most finitely many steps), and any value actually
returned by the fixed-point iteration squares back to `v` exactly. -/
theorem C1_sqrt_square_within_epsilon (v : ℝ) (q : ℚ) (hv : 0 ≤ v) (hq : 0 ≤ q) :
    (∃ r, math.sqrt_rt v = .ok r ∧ |r * r - v| ≤ ((math.epsilon : ℚ) : ℝ)) ∧
    (∃ n, |math.newton q n * math.newton q n - q| ≤ math.epsilon) ∧
    ∀ fuel r, math.sqrt_ct fuel q = .ok (some r) → |r * r - q| ≤ math.epsilon := by
  refine ⟨⟨Real.sqrt v, ?_, ?_⟩, math.newton_eventually_within_epsilon q hq,
    fun fuel r h => ?_⟩
  · rw [math.sqrt_rt, if_neg (not_lt.mpr hv)]
  · rw [Real.mul_self_sqrt hv, sub_self, abs_zero]
    exact_mod_cast le_of_lt math.epsilon_pos
  · rw [math.sqrt_ct_exact fuel q r hq h, sub_self, abs_zero]
    exact le_of_lt math.epsilon_pos

/-- Witness for C1 at `v = 1`, `q = 1`. -/
theorem C1_sqrt_square_within_epsilon_witness :
    (0:ℝ) ≤ 1 ∧ (0:ℚ) ≤ 1 ∧
      ((∃ r, math.sqrt_rt 1 = .ok r ∧ |r * r - 1| ≤ ((math.epsilon : ℚ) : ℝ)) ∧
        (∃ n, |math.newton 1 n * math.newton 1 n - 1| ≤ math.epsilon) ∧
        ∀ fuel r, math.sqrt_ct fuel 1 = .ok (some r) → |r * r - 1| ≤ math.epsilon) :=
  ⟨zero_le_one, zero_le_one,
    C1_sqrt_square_within_epsilon 1 1 zero_le_one zero_le_one⟩

/-! ### The mod layer: reduction lemmas and fmod facts -/

theorem math.equals_zero_true_iff (x : ℚ) :
    math.equals x 0 = true ↔ |x| ≤ math.epsilon := by
  rw [math.equals_true_iff, sub_zero, abs_le]

theorem math.equals_zero_false_iff (x : ℚ) :
    math.equals x 0 = false ↔ math.epsilon < |x| := by
  rw [math.equals_false_iff, sub_zero]
  constructor
  · rintro (h | h)
    · rw [abs_of_neg (by linarith [math.epsilon_pos] : x < 0)]
      linarith
    · rw [abs_of_pos (by linarith [math.epsilon_pos] : 0 < x)]
      exact h
  · intro h
    rcases lt_abs.mp h with h1 | h1
    · exact Or.inr h1
    · exact Or.inl (by linarith)

theorem math.mod_ct_zero_value (v d : ℚ) (hd : math.equals d 0 = false)
    (hv : math.equals v 0 = true) : math.mod_ct v d = .ok 0 := by
  simp only [math.mod_ct, hd, hv, Bool.false_eq_true, if_false, if_true]

theorem math.mod_ct_reduce (v d : ℚ) (hd : math.equals d 0 = false)
    (hv : math.equals v 0 = false) :
    math.mod_ct v d = .ok (v -
      ((truncToZero (v / d + math.epsilon * ((math.sign (v / d) : ℤ) : ℚ)) : ℤ) : ℚ) * d
      + math.DBL_EPSILON * ((math.sign v : ℤ) : ℚ)) := by
  simp only [math.mod_ct, hd, hv, Bool.false_eq_true, if_false]

theorem math.mod_rt_reduce (v d : ℚ) (hd : math.equals d 0 = false) :
    math.mod_rt v d = .ok
      (if math.equals (math.abs (std.fmod v d)) (math.abs d) then 0 else std.fmod v d) := by
  simp only [math.mod_rt, hd, Bool.false_eq_true, if_false]

theorem std.fmod_facts (v d : ℚ) (hd0 : d ≠ 0) :
    |std.fmod v d| < |d| ∧ 0 ≤ std.fmod v d * v := by
  have hdq : d * (v / d) = v := by
    rw [mul_comm]
    exact div_mul_cancel₀ v hd0
  rcases le_or_lt 0 (v / d) with hq | hq
  · have ht : truncToZero (v / d) = ⌊v / d⌋ := by rw [truncToZero, if_pos hq]
    have h1 : ((⌊v / d⌋ : ℤ) : ℚ) ≤ v / d := Int.floor_le _
    have h2 : v / d < ⌊v / d⌋ + 1 := Int.lt_floor_add_one _
    have hf : std.fmod v d = d * (v / d - ((⌊v / d⌋ : ℤ) : ℚ)) := by
      rw [std.fmod, ht, mul_sub, hdq]
    have hfr1 : 0 ≤ v / d - ((⌊v / d⌋ : ℤ) : ℚ) := by linarith
    have hfr2 : v / d - ((⌊v / d⌋ : ℤ) : ℚ) < 1 := by linarith
    have hprodeq : std.fmod v d * v = d ^ 2 * ((v / d - ((⌊v / d⌋ : ℤ) : ℚ)) * (v / d)) := by
      rw [hf]
      field_simp
      ring
    have hprod : 0 ≤ std.fmod v d * v := by
      rw [hprodeq]
      exact mul_nonneg (sq_nonneg d) (mul_nonneg hfr1 hq)
    rcases lt_or_gt_of_ne hd0 with hdneg | hdpos
    · refine ⟨?_, hprod⟩
      rw [hf, abs_of_nonpos (by nlinarith), abs_of_neg hdneg]
      nlinarith
    · refine ⟨?_, hprod⟩
      rw [hf, abs_of_nonneg (by nlinarith), abs_of_pos hdpos]
      nlinarith
  · have ht : truncToZero (v / d) = ⌈v / d⌉ := by rw [truncToZero, if_neg (not_le.mpr hq)]
    have h1 : v / d ≤ ((⌈v / d⌉ : ℤ) : ℚ) := Int.le_ceil _
    have h2 : ((⌈v / d⌉ : ℤ) : ℚ) < v / d + 1 := Int.ceil_lt_add_one _
    have hf : std.fmod v d = d * (v / d - ((⌈v / d⌉ : ℤ) : ℚ)) := by
      rw [std.fmod, ht, mul_sub, hdq]
    have hfr1 : v / d - ((⌈v / d⌉ : ℤ) : ℚ) ≤ 0 := by linarith
    have hfr2 : -1 < v / d - ((⌈v / d⌉ : ℤ) : ℚ) := by linarith
    have hfrq : 0 ≤ (v / d - ((⌈v / d⌉ : ℤ) : ℚ)) * (v / d) := by
      have h3 : 0 ≤ (-(v / d - ((⌈v / d⌉ : ℤ) : ℚ))) * (-(v / d)) :=
        mul_nonneg (by linarith) (by linarith)
      nlinarith [h3]
    have hprodeq : std.fmod v d * v = d ^ 2 * ((v / d - ((⌈v / d⌉ : ℤ) : ℚ)) * (v / d)) := by
      rw [hf]
      field_simp
      ring
    have hprod : 0 ≤ std.fmod v d * v := by
      rw [hprodeq]
      exact mul_nonneg (sq_nonneg d) hfrq
    rcases lt_or_gt_of_ne hd0 with hdneg | hdpos
    · refine ⟨?_, hprod⟩
      rw [hf, abs_of_nonneg (by nlinarith), abs_of_neg hdneg]
      nlinarith
    · refine ⟨?_, hprod⟩
      rw [hf, abs_of_nonpos (by nlinarith), abs_of_pos hdpos]
      nlinarith

theorem math.two_epsilon_le_one : 2 * math.epsilon ≤ 1 := by norm_num [math.epsilon]

set_option maxHeartbeats 1000000 in
/-- Core analysis of the ahead-of-time `mod` path for a non-`equals`-zero
value and divisor: the result's magnitude stays strictly below `|d|`, and any
result farther than `epsilon * (|d| + 1) + DBL_EPSILON` from zero carries the
sign of the value. -/
theorem math.mod_ct_core (v d : ℚ) (hd : math.epsilon < |d|) (hv : math.epsilon < |v|) :
    ∃ r, math.mod_ct v d = .ok r ∧ |r| < |d| ∧
      (math.epsilon * (|d| + 1) + math.DBL_EPSILON < |r| → math.sign r = math.sign v) := by
  have hεp := math.epsilon_pos
  have hε1 := math.epsilon_lt_one
  have hδp := math.DBL_EPSILON_pos
  have hδε2 := math.DBL_EPSILON_lt_eps_sq
  have h2ε := math.two_epsilon_le_one
  have habsd : 0 < |d| := lt_trans hεp hd
  have hd0 : d ≠ 0 := by
    intro h
    rw [h, abs_zero] at hd
    linarith
  have he_d : math.equals d 0 = false := (math.equals_zero_false_iff d).mpr hd
  have he_v : math.equals v 0 = false := (math.equals_zero_false_iff v).mpr hv
  have hdq : d * (v / d) = v := by
    rw [mul_comm]
    exact div_mul_cancel₀ v hd0
  have hred := math.mod_ct_reduce v d he_d he_v
  by_cases hqA : |v / d| ≤ math.epsilon
  · -- quotient within the epsilon band of zero: multiplier is 0
    have hσq : math.sign (v / d) = 0 :=
      math.sign_of_small (abs_le.mp hqA).1 (abs_le.mp hqA).2
    rw [hσq] at hred
    have harg : v / d + math.epsilon * ((0 : ℤ) : ℚ) = v / d := by push_cast; ring
    rw [harg, truncToZero_eq_zero
      (by linarith [(abs_le.mp hqA).1] : (-1 : ℚ) < v / d)
      (by linarith [(abs_le.mp hqA).2] : v / d < 1)] at hred
    have hvd : |v| ≤ math.epsilon * |d| := by
      rw [abs_div] at hqA
      exact (div_le_iff₀ habsd).mp hqA
    have h1 : math.epsilon * math.epsilon < math.epsilon * |d| :=
      mul_lt_mul_of_pos_left hd hεp
    have h2 : 2 * math.epsilon * |d| ≤ |d| := by
      have h2a := mul_le_mul_of_nonneg_right h2ε (le_of_lt habsd)
      have h2b : (1:ℚ) * |d| = |d| := one_mul _
      linarith
    rcases lt_abs.mp hv with hv1 | hv1
    · have hσv : math.sign v = 1 := math.sign_of_pos hv1
      rw [hσv] at hred
      have hsimp : v - ((0 : ℤ) : ℚ) * d + math.DBL_EPSILON * ((1 : ℤ) : ℚ) =
          v + math.DBL_EPSILON := by push_cast; ring
      rw [hsimp] at hred
      refine ⟨v + math.DBL_EPSILON, hred, ?_, fun _ => ?_⟩
      · rw [abs_of_pos (by linarith : (0:ℚ) < v + math.DBL_EPSILON)]
        have habsv : |v| = v := abs_of_pos (by linarith)
        rw [habsv] at hvd
        linarith
      · rw [hσv, math.sign_of_pos (by linarith : math.epsilon < v + math.DBL_EPSILON)]
    · have hσv : math.sign v = -1 := math.sign_of_neg (by linarith)
      rw [hσv] at hred
      have hsimp : v - ((0 : ℤ) : ℚ) * d + math.DBL_EPSILON * ((-1 : ℤ) : ℚ) =
          v - math.DBL_EPSILON := by push_cast; ring
      rw [hsimp] at hred
      refine ⟨v - math.DBL_EPSILON, hred, ?_, fun _ => ?_⟩
      · rw [abs_of_neg (by linarith : v - math.DBL_EPSILON < 0)]
        have habsv : |v| = -v := abs_of_neg (by linarith)
        rw [habsv] at hvd
        linarith
      · rw [hσv, math.sign_of_neg (by linarith : v - math.DBL_EPSILON < -math.epsilon)]
  · have hq' : math.epsilon < |v / d| := not_le.mp hqA
    rcases lt_abs.mp hq' with hqB | hqC
    · -- positive quotient: epsilon-nudged floor
      have hσq : math.sign (v / d) = 1 := math.sign_of_pos hqB
      rw [hσq] at hred
      have harg : v / d + math.epsilon * ((1 : ℤ) : ℚ) = v / d + math.epsilon := by
        push_cast; ring
      rw [harg, show truncToZero (v / d + math.epsilon) = ⌊v / d + math.epsilon⌋ from
        by rw [truncToZero, if_pos (by linarith : (0:ℚ) ≤ v / d + math.epsilon)]] at hred
      have hm_le : ((⌊v / d + math.epsilon⌋ : ℤ) : ℚ) ≤ v / d + math.epsilon := Int.floor_le _
      have hm_gt : v / d + math.epsilon < ((⌊v / d + math.epsilon⌋ : ℤ) : ℚ) + 1 :=
        Int.lt_floor_add_one _
      set M : ℚ := ((⌊v / d + math.epsilon⌋ : ℤ) : ℚ) with hM
      have hA : -math.epsilon ≤ v / d - M := by linarith
      have hB : v / d - M < 1 - math.epsilon := by linarith
      rcases lt_abs.mp hd with hd1 | hd1
      · -- d > epsilon, value positive
        have hdpos : 0 < d := by linarith
        have habs_d : |d| = d := abs_of_pos hdpos
        have hvpos : 0 < v := by
          rw [← hdq]
          exact mul_pos hdpos (by linarith : 0 < v / d)
        have hv1 : math.epsilon < v := by
          rcases lt_abs.mp hv with h | h
          · exact h
          · linarith
        have hσv : math.sign v = 1 := math.sign_of_pos hv1
        rw [hσv] at hred
        have hsimp : v - M * d + math.DBL_EPSILON * ((1 : ℤ) : ℚ) =
            d * (v / d - M) + math.DBL_EPSILON := by
          push_cast
          rw [mul_sub, hdq]
          ring
        rw [hsimp] at hred
        have hub : d * (v / d - M) < d * (1 - math.epsilon) :=
          mul_lt_mul_of_pos_left hB hdpos
        have hlb : d * (-math.epsilon) ≤ d * (v / d - M) :=
          mul_le_mul_of_nonneg_left hA (le_of_lt hdpos)
        have hδεd : math.DBL_EPSILON < math.epsilon * d :=
          lt_trans hδε2 (mul_lt_mul_of_pos_left hd1 hεp)
        have hεd_lt : math.epsilon * d < d := by
          have ha := mul_lt_mul_of_pos_right hε1 hdpos
          have hb : (1:ℚ) * d = d := one_mul d
          linarith
        have hr1 : d * (-math.epsilon) = -(math.epsilon * d) := by ring
        have hr2 : d * (1 - math.epsilon) = d - math.epsilon * d := by ring
        refine ⟨d * (v / d - M) + math.DBL_EPSILON, hred, ?_, ?_⟩
        · rw [habs_d, abs_lt]
          constructor <;> linarith
        · intro hbig
          rw [habs_d] at hbig
          have hr3 : math.epsilon * (d + 1) = math.epsilon * d + math.epsilon := by ring
          have hεd0 : 0 < math.epsilon * d := mul_pos hεp hdpos
          rcases le_or_lt (d * (v / d - M) + math.DBL_EPSILON) 0 with hr0 | hr0
          · rw [abs_of_nonpos hr0] at hbig
            linarith
          · rw [abs_of_pos hr0] at hbig
            rw [hσv, math.sign_of_pos
              (by linarith : math.epsilon < d * (v / d - M) + math.DBL_EPSILON)]
      · -- d < -epsilon, value negative
        have hdneg : d < 0 := by linarith
        have habs_d : |d| = -d := abs_of_neg hdneg
        have hvneg : v < 0 := by
          rw [← hdq]
          exact mul_neg_of_neg_of_pos hdneg (by linarith : 0 < v / d)
        have hv1 : math.epsilon < -v := by
          rcases lt_abs.mp hv with h | h
          · linarith
          · exact h
        have hσv : math.sign v = -1 := math.sign_of_neg (by linarith)
        rw [hσv] at hred
        have hsimp : v - M * d + math.DBL_EPSILON * ((-1 : ℤ) : ℚ) =
            d * (v / d - M) - math.DBL_EPSILON := by
          push_cast
          rw [mul_sub, hdq]
          ring
        rw [hsimp] at hred
        have hub : d * (v / d - M) ≤ d * (-math.epsilon) :=
          mul_le_mul_of_nonpos_left hA (le_of_lt hdneg)
        have hlb : d * (1 - math.epsilon) < d * (v / d - M) :=
          mul_lt_mul_of_neg_left hB hdneg
        have hδεd : math.DBL_EPSILON < math.epsilon * (-d) :=
          lt_trans hδε2 (mul_lt_mul_of_pos_left hd1 hεp)
        have hr1 : d * (-math.epsilon) = math.epsilon * (-d) := by ring
        refine ⟨d * (v / d - M) - math.DBL_EPSILON, hred, ?_, ?_⟩
        · rw [habs_d, abs_lt]
          constructor
          · have h4 : d * (1 - math.epsilon) = d + math.epsilon * (-d) := by ring
            linarith
          · have h4 : math.epsilon * (-d) < -d := by
              have ha := mul_lt_mul_of_pos_right hε1 (by linarith : (0:ℚ) < -d)
              have hb : (1:ℚ) * -d = -d := one_mul _
              linarith
            linarith
        · intro hbig
          rw [habs_d] at hbig
          have hr3 : math.epsilon * (-d + 1) = math.epsilon * (-d) + math.epsilon := by ring
          rcases le_or_lt 0 (d * (v / d - M) - math.DBL_EPSILON) with hr0 | hr0
          · rw [abs_of_nonneg hr0] at hbig
            linarith
          · rw [abs_of_neg hr0] at hbig
            have hεd0 : 0 < math.epsilon * (-d) := mul_pos hεp (by linarith)
            rw [hσv, math.sign_of_neg
              (by linarith : d * (v / d - M) - math.DBL_EPSILON < -math.epsilon)]
    · -- negative quotient: epsilon-nudged ceiling
      have hqC' : v / d < -math.epsilon := by linarith
      have hσq : math.sign (v / d) = -1 := math.sign_of_neg hqC'
      rw [hσq] at hred
      have harg : v / d + math.epsilon * ((-1 : ℤ) : ℚ) = v / d - math.epsilon := by
        push_cast; ring
      rw [harg, show truncToZero (v / d - math.epsilon) = ⌈v / d - math.epsilon⌉ from
        by rw [truncToZero, if_neg (by push_neg; linarith : ¬(0:ℚ) ≤ v / d - math.epsilon)]] at hred
      have hm_ge : v / d - math.epsilon ≤ ((⌈v / d - math.epsilon⌉ : ℤ) : ℚ) := Int.le_ceil _
      have hm_lt : ((⌈v / d - math.epsilon⌉ : ℤ) : ℚ) < v / d - math.epsilon + 1 :=
        Int.ceil_lt_add_one _
      set M : ℚ := ((⌈v / d - math.epsilon⌉ : ℤ) : ℚ) with hM
      have hA : math.epsilon - 1 < v / d - M := by linarith
      have hB : v / d - M ≤ math.epsilon := by linarith
      rcases lt_abs.mp hd with hd1 | hd1
      · -- d > epsilon, value negative
        have hdpos : 0 < d := by linarith
        have habs_d : |d| = d := abs_of_pos hdpos
        have hvneg : v < 0 := by
          rw [← hdq]
          exact mul_neg_of_pos_of_neg hdpos (by linarith : v / d < 0)
        have hv1 : math.epsilon < -v := by
          rcases lt_abs.mp hv with h | h
          · linarith
          · exact h
        have hσv : math.sign v = -1 := math.sign_of_neg (by linarith)
        rw [hσv] at hred
        have hsimp : v - M * d + math.DBL_EPSILON * ((-1 : ℤ) : ℚ) =
            d * (v / d - M) - math.DBL_EPSILON := by
          push_cast
          rw [mul_sub, hdq]
          ring
        rw [hsimp] at hred
        have hub : d * (v / d - M) ≤ d * math.epsilon :=
          mul_le_mul_of_nonneg_left hB (le_of_lt hdpos)
        have hlb : d * (math.epsilon - 1) < d * (v / d - M) :=
          mul_lt_mul_of_pos_left hA hdpos
        have hδεd : math.DBL_EPSILON < math.epsilon * d :=
          lt_trans hδε2 (mul_lt_mul_of_pos_left hd1 hεp)
        have h5 : d * math.epsilon = math.epsilon * d := by ring
        refine ⟨d * (v / d - M) - math.DBL_EPSILON, hred, ?_, ?_⟩
        · rw [habs_d, abs_lt]
          constructor
          · have h4 : d * (math.epsilon - 1) = math.epsilon * d - d := by ring
            linarith
          · have h4 : d * math.epsilon < d := by
              have ha := mul_lt_mul_of_pos_left hε1 hdpos
              have hb : d * (1:ℚ) = d := mul_one d
              linarith
            linarith
        · intro hbig
          rw [habs_d] at hbig
          have hr3 : math.epsilon * (d + 1) = math.epsilon * d + math.epsilon := by ring
          rcases le_or_lt 0 (d * (v / d - M) - math.DBL_EPSILON) with hr0 | hr0
          · rw [abs_of_nonneg hr0] at hbig
            linarith
          · rw [abs_of_neg hr0] at hbig
            have hεd0 : 0 < math.epsilon * d := mul_pos hεp hdpos
            rw [hσv, math.sign_of_neg
              (by linarith : d * (v / d - M) - math.DBL_EPSILON < -math.epsilon)]
      · -- d < -epsilon, value positive
        have hdneg : d < 0 := by linarith
        have habs_d : |d| = -d := abs_of_neg hdneg
        have hvpos : 0 < v := by
          rw [← hdq]
          exact mul_pos_of_neg_of_neg hdneg (by linarith : v / d < 0)
        have hv1 : math.epsilon < v := by
          rcases lt_abs.mp hv with h | h
          · exact h
          · linarith
        have hσv : math.sign v = 1 := math.sign_of_pos hv1
        rw [hσv] at hred
        have hsimp : v - M * d + math.DBL_EPSILON * ((1 : ℤ) : ℚ) =
            d * (v / d - M) + math.DBL_EPSILON := by
          push_cast
          rw [mul_sub, hdq]
          ring
        rw [hsimp] at hred
        have hub : d * (v / d - M) < d * (math.epsilon - 1) :=
          mul_lt_mul_of_neg_left hA hdneg
        have hlb : d * math.epsilon ≤ d * (v / d - M) :=
          mul_le_mul_of_nonpos_left hB (le_of_lt hdneg)
        have hδεd : math.DBL_EPSILON < math.epsilon * (-d) :=
          lt_trans hδε2 (mul_lt_mul_of_pos_left hd1 hεp)
        have h5 : d * math.epsilon = -(math.epsilon * (-d)) := by ring
        refine ⟨d * (v / d - M) + math.DBL_EPSILON, hred, ?_, ?_⟩
        · rw [habs_d, abs_lt]
          constructor
          · have h4 : d * math.epsilon = d + d * (math.epsilon - 1) := by ring
            linarith [mul_pos_of_neg_of_neg hdneg (by linarith : math.epsilon - 1 < 0), h4]
          · have h4 : d * (math.epsilon - 1) = d * math.epsilon - d := by ring
            linarith
        · intro hbig
          rw [habs_d] at hbig
          have hr3 : math.epsilon * (-d + 1) = math.epsilon * (-d) + math.epsilon := by ring
          rcases le_or_lt (d * (v / d - M) + math.DBL_EPSILON) 0 with hr0 | hr0
          · rw [abs_of_nonpos hr0] at hbig
            linarith
          · rw [abs_of_pos hr0] at hbig
            have hεd0 : 0 < math.epsilon * (-d) := mul_pos hεp (by linarith)
            rw [hσv, math.sign_of_pos
              (by linarith : math.epsilon < d * (v / d - M) + math.DBL_EPSILON)]

/-- Core analysis of the live `mod` path: the normalized `fmod` result stays
strictly below `|d|` in magnitude, and any result farther than
`epsilon * (|d| + 1) + DBL_EPSILON` from zero carries the sign of the value. -/
theorem math.mod_rt_core (v d : ℚ) (hd : math.epsilon < |d|) :
    ∃ s, math.mod_rt v d = .ok s ∧ |s| < |d| ∧
      (math.epsilon * (|d| + 1) + math.DBL_EPSILON < |s| → math.sign s = math.sign v) := by
  have hεp := math.epsilon_pos
  have hδp := math.DBL_EPSILON_pos
  have habsd : 0 < |d| := lt_trans hεp hd
  have hd0 : d ≠ 0 := by
    intro h
    rw [h, abs_zero] at hd
    linarith
  have he_d : math.equals d 0 = false := (math.equals_zero_false_iff d).mpr hd
  have hred := math.mod_rt_reduce v d he_d
  obtain ⟨hfb, hfs⟩ := std.fmod_facts v d hd0
  by_cases hnorm : math.equals (math.abs (std.fmod v d)) (math.abs d) = true
  · rw [if_pos hnorm] at hred
    refine ⟨0, hred, ?_, ?_⟩
    · rw [abs_zero]
      exact habsd
    · intro hbig
      rw [abs_zero] at hbig
      exfalso
      have := mul_pos hεp (by linarith : (0:ℚ) < |d| + 1)
      linarith
  · rw [if_neg hnorm] at hred
    refine ⟨std.fmod v d, hred, hfb, ?_⟩
    intro hbig
    have hbound_ge : math.epsilon < |std.fmod v d| := by
      have h1 : 0 ≤ math.epsilon * |d| := mul_nonneg (le_of_lt hεp) (le_of_lt habsd)
      have h2 : math.epsilon * (|d| + 1) = math.epsilon * |d| + math.epsilon := by ring
      linarith
    have hvbig : math.epsilon < |v| := by
      by_contra hc
      push_neg at hc
      have hql : |v / d| < 1 := by
        rw [abs_div, div_lt_one habsd]
        linarith
      have ht0 : truncToZero (v / d) = 0 :=
        truncToZero_eq_zero (abs_lt.mp hql).1 (abs_lt.mp hql).2
      have hfv : std.fmod v d = v := by
        rw [std.fmod, ht0]
        push_cast
        ring
      rw [hfv] at hbound_ge
      linarith
    have hs0 : std.fmod v d ≠ 0 := by
      intro h
      rw [h, abs_zero] at hbound_ge
      linarith
    rcases lt_abs.mp hvbig with hv1 | hv1
    · have hvpos : 0 < v := by linarith
      have hspos : 0 < std.fmod v d := by
        by_contra hc
        push_neg at hc
        have hlt : std.fmod v d < 0 := lt_of_le_of_ne hc hs0
        nlinarith [hfs]
      rw [math.sign_of_pos hv1,
        math.sign_of_pos (by rw [abs_of_pos hspos] at hbound_ge; exact hbound_ge)]
    · have hvneg : v < 0 := by linarith
      have hsneg : std.fmod v d < 0 := by
        by_contra hc
        push_neg at hc
        have hgt : 0 < std.fmod v d := lt_of_le_of_ne hc (Ne.symm hs0)
        nlinarith [hfs]
      rw [math.sign_of_neg (by linarith : v < -math.epsilon),
        math.sign_of_neg (by rw [abs_of_neg hsneg] at hbound_ge; linarith)]

/-! ### C4 -/

/-- C4 (amended): for every value and every divisor not epsilon-equal to
zero, both mod paths succeed; the result's magnitude is strictly less than
`abs(divisor)`; the explicit zero case (`equals(value, 0)`) returns `0` on
the ahead-of-time path; and the result carries the sign of the value
whenever its magnitude exceeds `epsilon * (abs(divisor) + 1) + DBL_EPSILON`
(for results nearer to zero the sign may differ from the value's, which
falsifies the claim as stated — see the counterexample). -/
theorem C4_mod_sign_magnitude (v d : ℚ) (hd : math.equals d 0 = false) :
    ∃ r s, math.mod_ct v d = .ok r ∧ math.mod_rt v d = .ok s ∧
      |r| < |d| ∧ |s| < |d| ∧
      (math.equals v 0 = true → r = 0) ∧
      (math.epsilon * (|d| + 1) + math.DBL_EPSILON < |r| → math.sign r = math.sign v) ∧
      (math.epsilon * (|d| + 1) + math.DBL_EPSILON < |s| → math.sign s = math.sign v) := by
  have hd' : math.epsilon < |d| := (math.equals_zero_false_iff d).mp hd
  obtain ⟨s, hs, hsb, hss⟩ := math.mod_rt_core v d hd'
  by_cases hv : math.equals v 0 = true
  · have hr := math.mod_ct_zero_value v d hd hv
    refine ⟨0, s, hr, hs, ?_, hsb, fun _ => rfl, ?_, hss⟩
    · rw [abs_zero]
      linarith [math.epsilon_pos]
    · intro hbig
      rw [abs_zero] at hbig
      exfalso
      have h1 := mul_pos math.epsilon_pos
        (by linarith [lt_trans math.epsilon_pos hd'] : (0:ℚ) < |d| + 1)
      linarith [math.DBL_EPSILON_pos]
  · have hv' : math.epsilon < |v| :=
      (math.equals_zero_false_iff v).mp (Bool.eq_false_iff.mpr hv)
    obtain ⟨r, hr, hrb, hrs⟩ := math.mod_ct_core v d hd' hv'
    exact ⟨r, s, hr, hs, hrb, hsb, fun h => absurd h hv, hrs, hss⟩

/-- C4 counterexample: at value `6999.995` and divisor `1000` (divisor not
epsilon-equal to zero, value not in the explicit zero case) the
ahead-of-time mod returns `DBL_EPSILON - 1/200 ≈ -0.005`, whose sign is `-1`
while the value's sign is `1`: the result does not have the same sign as the
value. -/
theorem C4_mod_sign_counterexample :
    math.equals 1000 0 = false ∧ math.equals (6999.995 : ℚ) 0 = false ∧
    math.mod_ct 6999.995 1000 = .ok (math.DBL_EPSILON - 1 / 200) ∧
    math.sign (math.DBL_EPSILON - 1 / 200) = -1 ∧ math.sign (6999.995 : ℚ) = 1 := by
  have he_d : math.equals (1000 : ℚ) 0 = false := by
    rw [math.equals_zero_false_iff, abs_of_pos (by norm_num : (0:ℚ) < 1000)]
    norm_num [math.epsilon]
  have he_v : math.equals (6999.995 : ℚ) 0 = false := by
    rw [math.equals_zero_false_iff, abs_of_pos (by norm_num : (0:ℚ) < 6999.995)]
    norm_num [math.epsilon]
  have hred := math.mod_ct_reduce 6999.995 1000 he_d he_v
  have hq : (6999.995 : ℚ) / 1000 = 6.999995 := by norm_num
  rw [hq] at hred
  have hσq : math.sign (6.999995 : ℚ) = 1 :=
    math.sign_of_pos (by norm_num [math.epsilon])
  rw [hσq] at hred
  have harg : (6.999995 : ℚ) + math.epsilon * ((1 : ℤ) : ℚ) = 7.000005 := by
    push_cast
    norm_num [math.epsilon]
  rw [harg] at hred
  have ht : truncToZero (7.000005 : ℚ) = 7 := by
    rw [truncToZero, if_pos (by norm_num : (0:ℚ) ≤ 7.000005)]
    norm_num
  rw [ht] at hred
  have hσv : math.sign (6999.995 : ℚ) = 1 :=
    math.sign_of_pos (by norm_num [math.epsilon])
  rw [hσv] at hred
  have heq : (6999.995 : ℚ) - ((7 : ℤ) : ℚ) * 1000 + math.DBL_EPSILON * ((1 : ℤ) : ℚ) =
      math.DBL_EPSILON - 1 / 200 := by
    push_cast
    ring_nf
  rw [heq] at hred
  refine ⟨he_d, he_v, hred, ?_, hσv⟩
  exact math.sign_of_neg (by norm_num [math.DBL_EPSILON, math.epsilon])

theorem C4_divisor_one_ok : math.equals (1 : ℚ) 0 = false := by
  rw [math.equals_zero_false_iff, abs_of_pos (by norm_num : (0:ℚ) < 1)]
  norm_num [math.epsilon]

/-- Witness for the amended C4 at `v = 1`, `d = 1`. -/
theorem C4_mod_sign_magnitude_witness :
    math.equals (1 : ℚ) 0 = false ∧
      ∃ r s, math.mod_ct 1 1 = .ok r ∧ math.mod_rt 1 1 = .ok s ∧
        |r| < |(1:ℚ)| ∧ |s| < |(1:ℚ)| ∧
        (math.equals 1 0 = true → r = 0) ∧
        (math.epsilon * (|(1:ℚ)| + 1) + math.DBL_EPSILON < |r| → math.sign r = math.sign 1) ∧
        (math.epsilon * (|(1:ℚ)| + 1) + math.DBL_EPSILON < |s| → math.sign s = math.sign 1) :=
  ⟨C4_divisor_one_ok, C4_mod_sign_magnitude 1 1 C4_divisor_one_ok⟩

/-! ### C5 -/

/-- C5 (amended): on the ahead-of-time path `sin` reduces its argument via
`mod(x, 2 * pi)`, and for every `x` that reduction succeeds with a value in
the open interval `(-2π, 2π)` — not `[0, 2π)` as claimed: negative inputs
reduce to negative values (see the counterexample). -/
theorem C5_sin_reduction_range (x : ℚ) :
    ∃ r, math.mod_ct x (2 * math.pi) = .ok r ∧ -(2 * math.pi) < r ∧ r < 2 * math.pi := by
  have h2pi : math.epsilon < |2 * math.pi| := by
    rw [abs_of_pos (by norm_num [math.pi] : (0:ℚ) < 2 * math.pi)]
    norm_num [math.epsilon, math.pi]
  have hd := (math.equals_zero_false_iff (2 * math.pi)).mpr h2pi
  by_cases hx : math.equals x 0 = true
  · refine ⟨0, math.mod_ct_zero_value x _ hd hx, ?_, ?_⟩ <;> norm_num [math.pi]
  · obtain ⟨r, hr, hrb, _⟩ := math.mod_ct_core x (2 * math.pi) h2pi
      ((math.equals_zero_false_iff x).mp (Bool.eq_false_iff.mpr hx))
    rw [abs_of_pos (by norm_num [math.pi] : (0:ℚ) < 2 * math.pi)] at hrb
    exact ⟨r, hr, (abs_lt.mp hrb).1, (abs_lt.mp hrb).2⟩

/-- C5 counterexample: `mod(-1, 2π)` on the ahead-of-time path is
`-1 - DBL_EPSILON`, strictly negative, hence not in `[0, 2π)`. -/
theorem C5_sin_reduction_counterexample :
    math.mod_ct (-1) (2 * math.pi) = .ok (-1 - math.DBL_EPSILON) ∧
    (-1 - math.DBL_EPSILON : ℚ) < 0 := by
  have h2pi : math.epsilon < |2 * math.pi| := by
    rw [abs_of_pos (by norm_num [math.pi] : (0:ℚ) < 2 * math.pi)]
    norm_num [math.epsilon, math.pi]
  have he_d := (math.equals_zero_false_iff (2 * math.pi)).mpr h2pi
  have he_v : math.equals (-1 : ℚ) 0 = false := by
    rw [math.equals_zero_false_iff, abs_of_neg (by norm_num : (-1:ℚ) < 0)]
    norm_num [math.epsilon]
  have hred := math.mod_ct_reduce (-1) (2 * math.pi) he_d he_v
  have hσq : math.sign ((-1 : ℚ) / (2 * math.pi)) = -1 :=
    math.sign_of_neg (by
      rw [div_lt_iff₀ (by norm_num [math.pi] : (0:ℚ) < 2 * math.pi)]
      norm_num [math.pi, math.epsilon])
  rw [hσq] at hred
  have hpi_pos : (0:ℚ) < 2 * math.pi := by norm_num [math.pi]
  have hneg_eq : (-1 : ℚ) / (2 * math.pi) = -(1 / (2 * math.pi)) := by ring
  have hfrac_pos : (0:ℚ) < 1 / (2 * math.pi) := by positivity
  have hfrac2 : (1:ℚ) / (2 * math.pi) < 1 - math.epsilon := by
    rw [div_lt_iff₀ hpi_pos]
    norm_num [math.pi, math.epsilon]
  have hb1 : (-1 : ℚ) < (-1) / (2 * math.pi) + math.epsilon * ((-1 : ℤ) : ℚ) := by
    push_cast
    rw [hneg_eq]
    linarith
  have hb2 : (-1 : ℚ) / (2 * math.pi) + math.epsilon * ((-1 : ℤ) : ℚ) < 1 := by
    push_cast
    rw [hneg_eq]
    linarith [math.epsilon_pos]
  rw [truncToZero_eq_zero hb1 hb2] at hred
  have hσv : math.sign (-1 : ℚ) = -1 :=
    math.sign_of_neg (by norm_num [math.epsilon])
  rw [hσv] at hred
  have heq : (-1 : ℚ) - ((0 : ℤ) : ℚ) * (2 * math.pi) + math.DBL_EPSILON * ((-1 : ℤ) : ℚ) =
      -1 - math.DBL_EPSILON := by
    push_cast
    ring
  rw [heq] at hred
  exact ⟨hred, by norm_num [math.DBL_EPSILON]⟩

/-! ### C7 -/

/-- C7 counterexample: `a = epsilon` is strictly positive, yet `mod(a, a)`
fails with `zero_exception` on both paths because `equals(a, 0)` holds. -/
theorem C7_mod_self_counterexample :
    (0:ℚ) < math.epsilon ∧
    math.mod_ct math.epsilon math.epsilon = .error .zeroException ∧
    math.mod_rt math.epsilon math.epsilon = .error .zeroException := by
  have he : math.equals math.epsilon 0 = true :=
    (math.equals_zero_true_iff _).mpr (le_of_eq (abs_of_pos math.epsilon_pos))
  refine ⟨math.epsilon_pos, ?_, ?_⟩
  · rw [math.mod_ct, if_pos he]
  · rw [math.mod_rt, if_pos he]

/-- C7 (amended): for every `a` strictly greater than epsilon (so that the
divisor is not epsilon-equal to zero), `mod(a, a)` succeeds on both paths:
the live path returns `0` exactly, the ahead-of-time path returns
`DBL_EPSILON`, which is epsilon-equal to `0`. -/
theorem C7_mod_self_equals_zero (a : ℚ) (h : math.epsilon < a) :
    math.mod_rt a a = .ok 0 ∧ math.mod_ct a a = .ok math.DBL_EPSILON ∧
      math.equals math.DBL_EPSILON 0 = true := by
  have hεp := math.epsilon_pos
  have hε1 := math.epsilon_lt_one
  have hapos : 0 < a := lt_trans hεp h
  have ha0 : a ≠ 0 := ne_of_gt hapos
  have habs : math.epsilon < |a| := by
    rw [abs_of_pos hapos]
    exact h
  have he_d : math.equals a 0 = false := (math.equals_zero_false_iff a).mpr habs
  refine ⟨?_, ?_, ?_⟩
  · have hf : std.fmod a a = 0 := by
      rw [std.fmod, div_self ha0,
        show truncToZero (1:ℚ) = 1 from by
          rw [show (1:ℚ) = ((1:ℤ):ℚ) by norm_num]
          exact truncToZero_intCast 1]
      push_cast
      ring
    have hred := math.mod_rt_reduce a a he_d
    rw [hf] at hred
    rw [ite_self] at hred
    exact hred
  · have hred := math.mod_ct_reduce a a he_d he_d
    rw [div_self ha0] at hred
    rw [math.sign_of_pos (by linarith : math.epsilon < (1:ℚ))] at hred
    have harg : (1:ℚ) + math.epsilon * ((1 : ℤ) : ℚ) = 1 + math.epsilon := by
      push_cast
      ring
    rw [harg] at hred
    have ht : truncToZero (1 + math.epsilon) = 1 := by
      rw [truncToZero, if_pos (by linarith : (0:ℚ) ≤ 1 + math.epsilon)]
      rw [Int.floor_eq_iff]
      push_cast
      constructor <;> linarith
    rw [ht] at hred
    rw [math.sign_of_pos h] at hred
    have heq : a - ((1 : ℤ) : ℚ) * a + math.DBL_EPSILON * ((1 : ℤ) : ℚ) =
        math.DBL_EPSILON := by
      push_cast
      ring
    rw [heq] at hred
    exact hred
  · refine (math.equals_zero_true_iff _).mpr ?_
    rw [abs_of_pos math.DBL_EPSILON_pos]
    norm_num [math.DBL_EPSILON, math.epsilon]

theorem C7_one_gt_eps : math.epsilon < (1 : ℚ) := math.epsilon_lt_one

/-- Witness for the amended C7 at `a = 1`. -/
theorem C7_mod_self_equals_zero_witness :
    math.epsilon < (1:ℚ) ∧
      (math.mod_rt 1 1 = .ok 0 ∧ math.mod_ct 1 1 = .ok math.DBL_EPSILON ∧
        math.equals math.DBL_EPSILON 0 = true) :=
  ⟨C7_one_gt_eps, C7_mod_self_equals_zero 1 C7_one_gt_eps⟩

/-! ### C8 -/

/-- C8 (amended): the round trip `degrees_to_radians(radians_to_degrees r)`
is within epsilon of `r` for every angle of magnitude at most `10^9`; it is
not within epsilon for every angle, because the product of the two stored
conversion constants differs from 1 by about `-7.017e-18` (see the
counterexample at `r = 10^13`). -/
theorem C8_roundtrip_within_epsilon (r : ℚ) (h : |r| ≤ 10 ^ 9) :
    |math.degrees_to_radians (math.radians_to_degrees r) - r| ≤ math.epsilon := by
  have heq : math.degrees_to_radians (math.radians_to_degrees r) - r =
      r * (math._180_div_pi * math.pi_div_180 - 1) := by
    rw [math.degrees_to_radians, math.radians_to_degrees]
    ring
  rw [heq, abs_mul]
  have hK : |math._180_div_pi * math.pi_div_180 - 1| ≤ math.epsilon / 10 ^ 9 := by
    rw [abs_of_neg (by norm_num [math._180_div_pi, math.pi_div_180] :
      math._180_div_pi * math.pi_div_180 - 1 < 0)]
    norm_num [math._180_div_pi, math.pi_div_180, math.epsilon]
  calc |r| * |math._180_div_pi * math.pi_div_180 - 1| ≤ 10 ^ 9 * (math.epsilon / 10 ^ 9) :=
        mul_le_mul h hK (abs_nonneg _) (by norm_num)
    _ = math.epsilon := by ring

/-- C8 counterexample: at `r = 10^13` the round trip misses `r` by about
`7e-5 > epsilon`, because the stored conversion constants do not multiply to
exactly 1. -/
theorem C8_roundtrip_counterexample :
    math.epsilon <
      |math.degrees_to_radians (math.radians_to_degrees (10 ^ 13)) - 10 ^ 13| := by
  have heq : math.degrees_to_radians (math.radians_to_degrees (10 ^ 13 : ℚ)) - 10 ^ 13 =
      (10 ^ 13 : ℚ) * (math._180_div_pi * math.pi_div_180 - 1) := by
    rw [math.degrees_to_radians, math.radians_to_degrees]
    ring
  rw [heq]
  rw [abs_of_neg (by norm_num [math._180_div_pi, math.pi_div_180] :
    (10 ^ 13 : ℚ) * (math._180_div_pi * math.pi_div_180 - 1) < 0)]
  norm_num [math._180_div_pi, math.pi_div_180, math.epsilon]

theorem C8_ninety_small : |(90 : ℚ)| ≤ 10 ^ 9 := by
  rw [abs_of_pos (by norm_num : (0:ℚ) < 90)]
  norm_num

/-- Witness for the amended C8 at `r = 90`. -/
theorem C8_roundtrip_within_epsilon_witness :
    |(90 : ℚ)| ≤ 10 ^ 9 ∧
      |math.degrees_to_radians (math.radians_to_degrees 90) - 90| ≤ math.epsilon :=
  ⟨C8_ninety_small, C8_roundtrip_within_epsilon 90 C8_ninety_small⟩

/-! ### C6: tan at exact multiples of pi and pi/2 -/

theorem math.equals_zero_zero : math.equals 0 0 = true :=
  (math.equals_zero_true_iff 0).mpr (by rw [abs_zero]; exact le_of_lt math.epsilon_pos)

theorem math.int_mul_not_small (k : ℤ) (d : ℚ) (hd : math.epsilon < d) (hk : k ≠ 0) :
    math.equals ((k : ℚ) * d) 0 = false := by
  have hdpos : 0 < d := lt_trans math.epsilon_pos hd
  rw [math.equals_zero_false_iff]
  have h1 : (1:ℚ) ≤ |(k : ℚ)| := by exact_mod_cast Int.one_le_abs hk
  have h2 : |(k : ℚ) * d| = |(k : ℚ)| * d := by
    rw [abs_mul, abs_of_pos hdpos]
  have h3 := mul_le_mul_of_nonneg_right h1 (le_of_lt hdpos)
  rw [h2]
  linarith [one_mul d]

/-- `mod_ct` at an exact integer multiple of the divisor returns a value
that is epsilon-equal to zero (`0` for the explicit zero case, otherwise
`±DBL_EPSILON`). -/
theorem math.mod_ct_int_mul (k : ℤ) (d : ℚ) (hd : math.epsilon < d) :
    ∃ r, math.mod_ct ((k : ℚ) * d) d = .ok r ∧ math.equals r 0 = true := by
  have hεp := math.epsilon_pos
  have hε1 := math.epsilon_lt_one
  have hdpos : 0 < d := lt_trans hεp hd
  have he_d : math.equals d 0 = false :=
    (math.equals_zero_false_iff d).mpr (by rw [abs_of_pos hdpos]; exact hd)
  have hδeq : math.equals math.DBL_EPSILON 0 = true := by
    refine (math.equals_zero_true_iff _).mpr ?_
    rw [abs_of_pos math.DBL_EPSILON_pos]
    norm_num [math.DBL_EPSILON, math.epsilon]
  by_cases hk : k = 0
  · subst hk
    refine ⟨0, ?_, math.equals_zero_zero⟩
    apply math.mod_ct_zero_value _ _ he_d
    refine (math.equals_zero_true_iff _).mpr ?_
    push_cast
    rw [zero_mul, abs_zero]
    exact le_of_lt hεp
  · have he_v : math.equals ((k : ℚ) * d) 0 = false := math.int_mul_not_small k d hd hk
    have hred := math.mod_ct_reduce ((k : ℚ) * d) d he_d he_v
    have hq : (k : ℚ) * d / d = (k : ℚ) := mul_div_cancel_right₀ _ (ne_of_gt hdpos)
    rw [hq] at hred
    rcases lt_or_gt_of_ne hk with hkneg | hkpos
    · -- k ≤ -1
      have hk1 : (k : ℚ) ≤ -1 := by exact_mod_cast (by omega : k ≤ -1)
      have hσq : math.sign (k : ℚ) = -1 := math.sign_of_neg (by linarith)
      rw [hσq] at hred
      have harg : (k : ℚ) + math.epsilon * ((-1 : ℤ) : ℚ) = (k : ℚ) - math.epsilon := by
        push_cast
        ring
      rw [harg] at hred
      have ht : truncToZero ((k : ℚ) - math.epsilon) = k := by
        rw [truncToZero, if_neg (by push_neg; linarith : ¬(0:ℚ) ≤ (k : ℚ) - math.epsilon)]
        rw [Int.ceil_eq_iff]
        constructor <;> linarith
      rw [ht] at hred
      have hσv : math.sign ((k : ℚ) * d) = -1 := by
        apply math.sign_of_neg
        have h4 : (k : ℚ) * d ≤ (-1) * d := mul_le_mul_of_nonneg_right hk1 (le_of_lt hdpos)
        have h5 : (-1 : ℚ) * d = -d := by ring
        linarith
      rw [hσv] at hred
      have heq : (k : ℚ) * d - (k : ℚ) * d + math.DBL_EPSILON * ((-1 : ℤ) : ℚ) =
          -math.DBL_EPSILON := by
        push_cast
        ring
      rw [heq] at hred
      refine ⟨-math.DBL_EPSILON, hred, ?_⟩
      refine (math.equals_zero_true_iff _).mpr ?_
      rw [abs_neg, abs_of_pos math.DBL_EPSILON_pos]
      norm_num [math.DBL_EPSILON, math.epsilon]
    · -- k ≥ 1
      have hk1 : (1 : ℚ) ≤ (k : ℚ) := by exact_mod_cast hkpos
      have hσq : math.sign (k : ℚ) = 1 := math.sign_of_pos (by linarith)
      rw [hσq] at hred
      have harg : (k : ℚ) + math.epsilon * ((1 : ℤ) : ℚ) = (k : ℚ) + math.epsilon := by
        push_cast
        ring
      rw [harg] at hred
      have ht : truncToZero ((k : ℚ) + math.epsilon) = k := by
        rw [truncToZero, if_pos (by linarith : (0:ℚ) ≤ (k : ℚ) + math.epsilon)]
        rw [Int.floor_eq_iff]
        constructor <;> linarith
      rw [ht] at hred
      have hσv : math.sign ((k : ℚ) * d) = 1 := by
        apply math.sign_of_pos
        have h4 : (1 : ℚ) * d ≤ (k : ℚ) * d := mul_le_mul_of_nonneg_right hk1 (le_of_lt hdpos)
        linarith [one_mul d]
      rw [hσv] at hred
      have heq : (k : ℚ) * d - (k : ℚ) * d + math.DBL_EPSILON * ((1 : ℤ) : ℚ) =
          math.DBL_EPSILON := by
        push_cast
        ring
      rw [heq] at hred
      exact ⟨math.DBL_EPSILON, hred, hδeq⟩

/-- `mod_rt` at an exact integer multiple of the divisor returns `0`. -/
theorem math.mod_rt_int_mul (k : ℤ) (d : ℚ) (hd : math.epsilon < d) :
    math.mod_rt ((k : ℚ) * d) d = .ok 0 := by
  have hεp := math.epsilon_pos
  have hdpos : 0 < d := lt_trans hεp hd
  have hd0 : d ≠ 0 := ne_of_gt hdpos
  have he_d : math.equals d 0 = false :=
    (math.equals_zero_false_iff d).mpr (by rw [abs_of_pos hdpos]; exact hd)
  have hf : std.fmod ((k : ℚ) * d) d = 0 := by
    rw [std.fmod, mul_div_cancel_right₀ _ hd0, truncToZero_intCast]
    ring
  have hred := math.mod_rt_reduce ((k : ℚ) * d) d he_d
  rw [hf, ite_self] at hred
  exact hred

theorem math.pi_eq_two_pi_2 : math.pi = 2 * math.pi_2 := by
  norm_num [math.pi, math.pi_2]

theorem math.pi_2_pos : (0 : ℚ) < math.pi_2 := by norm_num [math.pi_2]

theorem math.eps_lt_pi_2 : math.epsilon < math.pi_2 := by
  norm_num [math.epsilon, math.pi_2]

theorem math.eps_lt_pi : math.epsilon < math.pi := by
  norm_num [math.epsilon, math.pi]

theorem math.eps_lt_half : math.epsilon < 1 / 2 := by norm_num [math.epsilon]

theorem math.odd_mul_pi_2_div_pi (j : ℤ) :
    ((2 * j + 1 : ℤ) : ℚ) * math.pi_2 / math.pi = (j : ℚ) + 1 / 2 := by
  rw [math.pi_eq_two_pi_2]
  have hne : math.pi_2 ≠ 0 := ne_of_gt math.pi_2_pos
  field_simp
  ring

/-- On the ahead-of-time path, `mod` of an odd multiple of `pi_2` by `pi`
is `±(pi_2 + DBL_EPSILON)`, which is not epsilon-equal to zero. -/
theorem math.mod_ct_odd_pi_2 (j : ℤ) :
    ∃ r, math.mod_ct (((2 * j + 1 : ℤ) : ℚ) * math.pi_2) math.pi = .ok r ∧
      math.equals r 0 = false := by
  have hεp := math.epsilon_pos
  have hεh := math.eps_lt_half
  have hpi2 := math.pi_eq_two_pi_2
  have hp2pos := math.pi_2_pos
  have hεp2 := math.eps_lt_pi_2
  have hδp := math.DBL_EPSILON_pos
  have he_d : math.equals math.pi 0 = false :=
    (math.equals_zero_false_iff _).mpr
      (by rw [abs_of_pos (by linarith [hpi2] : (0:ℚ) < math.pi)]; exact math.eps_lt_pi)
  have he_v : math.equals (((2 * j + 1 : ℤ) : ℚ) * math.pi_2) 0 = false :=
    math.int_mul_not_small (2 * j + 1) math.pi_2 hεp2 (by omega)
  have hred := math.mod_ct_reduce _ _ he_d he_v
  rw [math.odd_mul_pi_2_div_pi j] at hred
  rcases le_or_lt 0 j with hj0 | hj0
  · -- j ≥ 0: positive odd multiple
    have hjq : (0:ℚ) ≤ (j : ℚ) := by exact_mod_cast hj0
    have hσq : math.sign ((j : ℚ) + 1 / 2) = 1 := math.sign_of_pos (by linarith)
    rw [hσq] at hred
    have harg : (j : ℚ) + 1 / 2 + math.epsilon * ((1 : ℤ) : ℚ) =
        (j : ℚ) + (1 / 2 + math.epsilon) := by
      push_cast
      ring
    rw [harg] at hred
    have ht : truncToZero ((j : ℚ) + (1 / 2 + math.epsilon)) = j := by
      rw [truncToZero, if_pos (by linarith : (0:ℚ) ≤ (j : ℚ) + (1 / 2 + math.epsilon))]
      rw [Int.floor_eq_iff]
      constructor <;> push_cast <;> linarith
    rw [ht] at hred
    have hσv : math.sign (((2 * j + 1 : ℤ) : ℚ) * math.pi_2) = 1 := by
      apply math.sign_of_pos
      have hk1 : (1 : ℚ) ≤ ((2 * j + 1 : ℤ) : ℚ) := by
        exact_mod_cast (by omega : (1:ℤ) ≤ 2 * j + 1)
      have h4 := mul_le_mul_of_nonneg_right hk1 (le_of_lt hp2pos)
      linarith [one_mul math.pi_2]
    rw [hσv] at hred
    have heq : ((2 * j + 1 : ℤ) : ℚ) * math.pi_2 - (j : ℚ) * math.pi +
        math.DBL_EPSILON * ((1 : ℤ) : ℚ) = math.pi_2 + math.DBL_EPSILON := by
      rw [hpi2]
      push_cast
      ring
    rw [heq] at hred
    refine ⟨_, hred, ?_⟩
    rw [math.equals_zero_false_iff,
      abs_of_pos (by linarith : (0:ℚ) < math.pi_2 + math.DBL_EPSILON)]
    linarith
  · -- j ≤ -1: negative odd multiple
    have hj1 : j ≤ -1 := by omega
    have hjq : (j : ℚ) ≤ -1 := by exact_mod_cast hj1
    have hσq : math.sign ((j : ℚ) + 1 / 2) = -1 := math.sign_of_neg (by linarith)
    rw [hσq] at hred
    have harg : (j : ℚ) + 1 / 2 + math.epsilon * ((-1 : ℤ) : ℚ) =
        (j : ℚ) + (1 / 2 - math.epsilon) := by
      push_cast
      ring
    rw [harg] at hred
    have ht : truncToZero ((j : ℚ) + (1 / 2 - math.epsilon)) = j + 1 := by
      rw [truncToZero,
        if_neg (by push_neg; linarith : ¬(0:ℚ) ≤ (j : ℚ) + (1 / 2 - math.epsilon))]
      rw [Int.ceil_eq_iff]
      constructor <;> push_cast <;> linarith
    rw [ht] at hred
    have hσv : math.sign (((2 * j + 1 : ℤ) : ℚ) * math.pi_2) = -1 := by
      apply math.sign_of_neg
      have hk1 : ((2 * j + 1 : ℤ) : ℚ) ≤ -1 := by
        exact_mod_cast (by omega : (2 * j + 1 : ℤ) ≤ -1)
      have h4 := mul_le_mul_of_nonneg_right hk1 (le_of_lt hp2pos)
      have h5 : (-1 : ℚ) * math.pi_2 = -math.pi_2 := by ring
      linarith
    rw [hσv] at hred
    have heq : ((2 * j + 1 : ℤ) : ℚ) * math.pi_2 - ((j + 1 : ℤ) : ℚ) * math.pi +
        math.DBL_EPSILON * ((-1 : ℤ) : ℚ) = -(math.pi_2 + math.DBL_EPSILON) := by
      rw [hpi2]
      push_cast
      ring
    rw [heq] at hred
    refine ⟨_, hred, ?_⟩
    rw [math.equals_zero_false_iff, abs_neg,
      abs_of_pos (by linarith : (0:ℚ) < math.pi_2 + math.DBL_EPSILON)]
    linarith

/-- On the live path, `mod` of an odd multiple of `pi_2` by `pi` is
`±pi_2`, which is not epsilon-equal to zero. -/
theorem math.mod_rt_odd_pi_2 (j : ℤ) :
    ∃ r, math.mod_rt (((2 * j + 1 : ℤ) : ℚ) * math.pi_2) math.pi = .ok r ∧
      math.equals r 0 = false := by
  have hεp := math.epsilon_pos
  have hεh := math.eps_lt_half
  have hpi2 := math.pi_eq_two_pi_2
  have hp2pos := math.pi_2_pos
  have hεp2 := math.eps_lt_pi_2
  have hpipos : (0:ℚ) < math.pi := by linarith [hpi2]
  have he_d : math.equals math.pi 0 = false :=
    (math.equals_zero_false_iff _).mpr
      (by rw [abs_of_pos hpipos]; exact math.eps_lt_pi)
  have hred := math.mod_rt_reduce (((2 * j + 1 : ℤ) : ℚ) * math.pi_2) math.pi he_d
  have habs_pi : math.abs math.pi = math.pi := math.abs_of_pos_big math.eps_lt_pi
  have habs_pi2 : math.abs math.pi_2 = math.pi_2 := math.abs_of_pos_big hεp2
  have hne : math.equals math.pi_2 math.pi = false := by
    rw [math.equals_false_iff]
    left
    rw [hpi2]
    linarith
  rcases le_or_lt 0 j with hj0 | hj0
  · have hjq : (0:ℚ) ≤ (j : ℚ) := by exact_mod_cast hj0
    have hf : std.fmod (((2 * j + 1 : ℤ) : ℚ) * math.pi_2) math.pi = math.pi_2 := by
      rw [std.fmod, math.odd_mul_pi_2_div_pi j]
      rw [show truncToZero ((j : ℚ) + 1 / 2) = j from by
        rw [truncToZero, if_pos (by linarith : (0:ℚ) ≤ (j : ℚ) + 1 / 2)]
        rw [Int.floor_eq_iff]
        constructor <;> push_cast <;> linarith]
      rw [hpi2]
      push_cast
      ring
    rw [hf, habs_pi, habs_pi2, if_neg (Bool.eq_false_iff.mp hne)] at hred
    refine ⟨math.pi_2, hred, ?_⟩
    rw [math.equals_zero_false_iff, abs_of_pos hp2pos]
    exact hεp2
  · have hj1 : j ≤ -1 := by omega
    have hjq : (j : ℚ) ≤ -1 := by exact_mod_cast hj1
    have hf : std.fmod (((2 * j + 1 : ℤ) : ℚ) * math.pi_2) math.pi = -math.pi_2 := by
      rw [std.fmod, math.odd_mul_pi_2_div_pi j]
      rw [show truncToZero ((j : ℚ) + 1 / 2) = j + 1 from by
        rw [truncToZero, if_neg (by push_neg; linarith : ¬(0:ℚ) ≤ (j : ℚ) + 1 / 2)]
        rw [Int.ceil_eq_iff]
        constructor <;> push_cast <;> linarith]
      rw [hpi2]
      push_cast
      ring
    have habs_neg : math.abs (-math.pi_2) = math.pi_2 := by
      rw [math.abs_of_neg_big (by linarith : -math.pi_2 < -math.epsilon), neg_neg]
    rw [hf, habs_neg, habs_pi, if_neg (Bool.eq_false_iff.mp hne)] at hred
    refine ⟨-math.pi_2, hred, ?_⟩
    rw [math.equals_zero_false_iff, abs_neg, abs_of_pos hp2pos]
    exact hεp2

set_option maxHeartbeats 2000000 in
/-- C6 (amended): `tan` returns NaN at every odd multiple of `π/2` — these
are exactly the non-zero multiples of `π/2` that are not multiples of `π` —
and returns `0` at every exact multiple of `π`, on both paths.  Even
multiples of `π/2` are multiples of `π` and return `0`, not NaN, because the
multiple-of-`π` check precedes the `π/2` check (see the counterexample at
`x = π`). -/
theorem C6_tan_multiples (k : ℤ) :
    (Odd k → math.tan_ct ((k : ℚ) * math.pi_2) = .ok none ∧
      math.tan_rt ((k : ℚ) * math.pi_2) = .ok none) ∧
    (math.tan_ct ((k : ℚ) * math.pi) = .ok (some 0) ∧
      math.tan_rt ((k : ℚ) * math.pi) = .ok (some 0)) := by
  constructor
  · intro hk
    obtain ⟨j, hj⟩ := hk
    have hk2 : k = 2 * j + 1 := by omega
    subst hk2
    obtain ⟨r1, hm1, he1⟩ := math.mod_ct_odd_pi_2 j
    obtain ⟨r2, hm2, he2⟩ := math.mod_ct_int_mul (2 * j + 1) math.pi_2 math.eps_lt_pi_2
    have hv : math.equals (((2 * j + 1 : ℤ) : ℚ) * math.pi_2) 0 = false :=
      math.int_mul_not_small (2 * j + 1) math.pi_2 math.eps_lt_pi_2 (by omega)
    obtain ⟨s1, hs1, hse1⟩ := math.mod_rt_odd_pi_2 j
    have hs2 := math.mod_rt_int_mul (2 * j + 1) math.pi_2 math.eps_lt_pi_2
    constructor
    · unfold math.tan_ct
      rw [hm1]
      split
      case _ e heq => exact absurd heq (by simp)
      case _ m heq =>
        rw [Except.ok.inj heq] at he1
        rw [he1, if_neg (show ¬(false = true) by simp)]
        rw [hm2]
        split
        case _ e heq2 => exact absurd heq2 (by simp)
        case _ m2 heq2 =>
          rw [Except.ok.inj heq2] at he2
          rw [hv, he2]
          rfl
    · unfold math.tan_rt
      rw [hs1]
      split
      case _ e heq => exact absurd heq (by simp)
      case _ m heq =>
        rw [Except.ok.inj heq] at hse1
        rw [hse1, if_neg (show ¬(false = true) by simp)]
        rw [hs2]
        split
        case _ e heq2 => exact absurd heq2 (by simp)
        case _ m2 heq2 =>
          have hm20 : m2 = 0 := (Except.ok.inj heq2).symm
          rw [hm20, hv, math.equals_zero_zero]
          rfl
  · obtain ⟨m1, hm1, he1⟩ := math.mod_ct_int_mul k math.pi math.eps_lt_pi
    have hs1 := math.mod_rt_int_mul k math.pi math.eps_lt_pi
    constructor
    · unfold math.tan_ct
      rw [hm1]
      split
      case _ e heq => exact absurd heq (by simp)
      case _ m heq =>
        rw [Except.ok.inj heq] at he1
        rw [he1]
        rfl
    · unfold math.tan_rt
      rw [hs1]
      split
      case _ e heq => exact absurd heq (by simp)
      case _ m heq =>
        have hm0 : m = 0 := (Except.ok.inj heq).symm
        rw [hm0, math.equals_zero_zero]
        rfl

set_option maxHeartbeats 2000000 in
/-- C6 counterexample: `π` is a non-zero exact multiple of `π/2`
(`π = 2 · (π/2)`), yet `tan(π)` returns `0` on both paths, not NaN as the
claim requires for every non-zero multiple of `π/2`. -/
theorem C6_tan_pi_counterexample :
    math.pi = 2 * math.pi_2 ∧ math.pi ≠ 0 ∧
    math.tan_ct math.pi = .ok (some 0) ∧ math.tan_rt math.pi = .ok (some 0) := by
  have hrw : math.pi = ((1 : ℤ) : ℚ) * math.pi := by push_cast; ring
  obtain ⟨m1, hm1, he1⟩ := math.mod_ct_int_mul 1 math.pi math.eps_lt_pi
  have hs1 := math.mod_rt_int_mul 1 math.pi math.eps_lt_pi
  refine ⟨math.pi_eq_two_pi_2, by norm_num [math.pi], ?_, ?_⟩
  · rw [hrw]
    unfold math.tan_ct
    rw [hm1]
    split
    case _ e heq => exact absurd heq (by simp)
    case _ m heq =>
      rw [Except.ok.inj heq] at he1
      rw [he1]
      rfl
  · rw [hrw]
    unfold math.tan_rt
    rw [hs1]
    split
    case _ e heq => exact absurd heq (by simp)
    case _ m heq =>
      have hm0 : m = 0 := (Except.ok.inj heq).symm
      rw [hm0, math.equals_zero_zero]
      rfl

/-- Witness for the amended C6 at `k = 1`: `tan(π/2)` is NaN on both paths. -/
theorem C6_tan_multiples_witness :
    math.tan_ct (((1 : ℤ) : ℚ) * math.pi_2) = .ok none ∧
      math.tan_rt (((1 : ℤ) : ℚ) * math.pi_2) = .ok none :=
  (C6_tan_multiples 1).1 ⟨0, by norm_num⟩

end bardcore
